import Mathlib

/-!
Shallow embedding of `main.py` of the gpt-token-counter repository.

Modelling conventions:
* Bytes are natural numbers (Python `bytes` elements are integers in `[0, 255]`).
* Filesystem reads are modelled by explicit functions passed as parameters:
  `readBytes : String → Option (List Nat)` models `open(path,'rb').read`
  (`none` = any raised exception), and `readFile : String → Option String`
  models `open(path,'r',encoding='utf-8',errors='ignore').read` (`none` = any
  exception raised while reading or encoding, collapsing the `except` branch).
* The external tiktoken encoder is an opaque parameter `encode : String → List Nat`.
* A directory tree is an inductive `FSTree`; `os.walk` over a root that does
  not exist or is not a directory yields nothing (with the default
  `onerror=None` the `scandir` error is swallowed), modelled by `Option FSTree`
  with `none` for that case.
* The multiprocessing pool's `imap_unordered` stream is modelled as a list of
  records that is a permutation of the in-order `map` of the worker function
  over the inputs; theorems quantify over the delivered order.
* Python dictionaries keyed by strings are modelled as total functions
  `String → Nat × Nat` defaulting to `(0, 0)`; the source's
  `if ext not in stats: stats[ext] = {'files': 0, 'tokens': 0}` followed by two
  increments is exactly a pointwise update of that function.
-/

/-- The allowed byte set of `is_text_file` (main.py line 25):
`bytearray({7, 8, 9, 10, 12, 13, 27} | set(range(0x20, 0x100)))`. -/
def text_chars : List Nat := [7, 8, 9, 10, 12, 13, 27] ++ List.range' 0x20 0xE0

/-- `is_text_file` (main.py lines 14-31).  Reads the first `blocksize` bytes;
returns `false` on a null byte, on a byte outside `text_chars`, or when the
read raises (`readBytes path = none`); `true` otherwise.  The source's default
`blocksize=512` is passed explicitly at every call site, as in the source. -/
def is_text_file (readBytes : String → Option (List Nat)) (file_path : String)
    (blocksize : Nat) : Bool :=
  match readBytes file_path with
  | none => false
  | some content =>
    let chunk := content.take blocksize
    if decide (0 ∈ chunk) then false
    else if !(chunk.all fun c => decide (c ∈ text_chars)) then false
    else true

/-- Python `os.path.join(root, name)` for a relative `name` on posix. -/
def pathJoin (root name : String) : String := root ++ "/" ++ name

/-- The last component of a posix path: everything after the final `/`
(the whole path when it holds no `/`).  This is the part of `p` that
`posixpath.splitext` scans for the extension dot. -/
def lastComponent (p : List Char) : List Char :=
  (p.reverse.takeWhile fun c => c != '/').reverse

/-- The extension returned by `posixpath.splitext(p)[1]` restricted to the
last path component: the suffix of `base` from its final `.` onward, provided
some character of `base` strictly before that dot is not a dot (leading dots
of the component are not extension separators); otherwise empty. -/
def extAfterLastDot (base : List Char) : List Char :=
  match base.reverse.dropWhile (fun c => c != '.') with
  | [] => []
  | _ :: rest =>
    if rest.any (fun c => c != '.') then
      '.' :: (base.reverse.takeWhile fun c => c != '.').reverse
    else []

/-- `os.path.splitext(file_path)[1]` (posix). -/
def splitextExt (file_path : String) : String :=
  String.mk (extAfterLastDot (lastComponent file_path.data))

/-- Python `str.lower()`, character by character (`Char.toLower` lowers
exactly the ASCII uppercase letters, which is Python's behaviour on ASCII
text). -/
def pyLower (s : String) : String := String.mk (s.data.map Char.toLower)

/-- The extension label computed in `count_tokens_in_file`
(main.py lines 69-70): `_, ext = os.path.splitext(file_path);
ext = ext.lower() if ext else 'No Extension'`. -/
def extLabel (file_path : String) : String :=
  let ext := splitextExt file_path
  if ext = "" then "No Extension" else pyLower ext

/-- `count_tokens_in_file` (main.py lines 59-74).  On a successful read the
content is encoded and the record `(some label, token count)` is produced; any
exception (read failure, decode catastrophe, encoder failure — all collapsed
into `readFile path = none`) yields the sentinel `(none, 0)`. -/
def count_tokens_in_file (encode : String → List Nat)
    (readFile : String → Option String) (file_path : String) :
    Option String × Nat :=
  match readFile file_path with
  | none => (none, 0)
  | some content =>
    let token_count := (encode content).length
    (some (extLabel file_path), token_count)

/-- Python truthiness for the optional extension lists in `main.py`
(`None` and the empty list are falsy). -/
def pyTruthy : Option (List String) → Bool
  | none => false
  | some l => !l.isEmpty

/-- One extension test of `get_all_text_files` (main.py lines 49 and 53):
`name.lower().endswith(ext.lower())` — `endswith` is the literal suffix
test. -/
def extMatch (name ext : String) : Bool :=
  (pyLower ext).data.isSuffixOf (pyLower name).data

/-- The per-file decision of the loop body of `get_all_text_files`
(main.py lines 43-55): a file named `name` in directory `root` is kept when it
classifies as text and survives the inclusion and then the exclusion
extension filters. -/
def keepFile (readBytes : String → Option (List Nat))
    (include_exts exclude_exts : Option (List String))
    (root name : String) : Bool :=
  let file_path := pathJoin root name
  if !is_text_file readBytes file_path 512 then false
  else if pyTruthy include_exts &&
      !((include_exts.getD []).any fun ext => extMatch name ext) then false
  else if pyTruthy exclude_exts &&
      ((exclude_exts.getD []).any fun ext => extMatch name ext) then false
  else true

/-- The subdirectory-descent decision of `get_all_text_files`
(main.py lines 41-42): `if exclude_dirs is not None:
dirs[:] = [d for d in dirs if d not in exclude_dirs]`. -/
def keepDir : Option (List String) → String → Bool
  | none, _ => true
  | some exclude_dirs, d => decide (d ∉ exclude_dirs)

/-- A directory tree: name, regular files, subdirectories. -/
inductive FSTree where
  | mk (name : String) (files : List String) (subdirs : List FSTree)

/-- The name of the root directory of a tree. -/
def FSTree.name : FSTree → String
  | .mk n _ _ => n

/-- The files of the root directory of a tree. -/
def FSTree.files : FSTree → List String
  | .mk _ fs _ => fs

/-- The subdirectories of the root directory of a tree. -/
def FSTree.subdirs : FSTree → List FSTree
  | .mk _ _ ds => ds

mutual
/-- The `os.walk` loop of `get_all_text_files` (main.py lines 38-56) over one
directory: the kept files of the current directory (in order), then the walk
of the non-excluded subdirectories (top-down, as `os.walk` yields them). -/
def walkTree (readBytes : String → Option (List Nat))
    (exclude_dirs include_exts exclude_exts : Option (List String))
    (root : String) : FSTree → List String
  | .mk _ files subdirs =>
    (files.filterMap fun name =>
      if keepFile readBytes include_exts exclude_exts root name then
        some (pathJoin root name)
      else none)
    ++ walkSubdirs readBytes exclude_dirs include_exts exclude_exts root subdirs

/-- The descent into a list of subdirectories, skipping (never entering)
those whose name the exclusion set prunes from `dirs`. -/
def walkSubdirs (readBytes : String → Option (List Nat))
    (exclude_dirs include_exts exclude_exts : Option (List String))
    (root : String) : List FSTree → List String
  | [] => []
  | d :: ds =>
    (if keepDir exclude_dirs d.name then
      walkTree readBytes exclude_dirs include_exts exclude_exts
        (pathJoin root d.name) d
    else [])
    ++ walkSubdirs readBytes exclude_dirs include_exts exclude_exts root ds
end

/-- `get_all_text_files` (main.py lines 34-56) over a modelled tree. -/
def get_all_text_files (readBytes : String → Option (List Nat))
    (exclude_dirs include_exts exclude_exts : Option (List String))
    (root : String) (t : FSTree) : List String :=
  walkTree readBytes exclude_dirs include_exts exclude_exts root t

/-- The aggregation state of `main` (main.py lines 101-103): the
`extension_stats` dictionary (modelled as a total function defaulting to
`(0, 0) = (files, tokens)` for absent keys), the running `total_tokens`, and
the list of progress lines printed so far (each `(idx, total_files,
running total)`, the three numbers of main.py line 120). -/
structure AggState where
  stats : String → Nat × Nat
  total_tokens : Nat
  progress : List (Nat × Nat × Nat)

/-- The consumer loop of `main` (main.py lines 111-120): `for idx, (ext,
count) in enumerate(token_counts, 1)`.  A record with `ext = none` is skipped
entirely (`continue`); otherwise the per-extension counters and the running
total are incremented and, with `verbose` set and `idx % 1000 == 0`, a
progress line is emitted. -/
def aggLoop (verbose : Bool) (total_files : Nat) :
    Nat → AggState → List (Option String × Nat) → AggState
  | _, s, [] => s
  | idx, s, (ext?, count) :: rest =>
    match ext? with
    | none => aggLoop verbose total_files (idx + 1) s rest
    | some ext =>
      let prev := s.stats ext
      let stats' := fun e => if e = ext then (prev.1 + 1, prev.2 + count) else s.stats e
      let total' := s.total_tokens + count
      let progress' :=
        if verbose && (idx % 1000 == 0) then
          s.progress ++ [(idx, total_files, total')]
        else s.progress
      aggLoop verbose total_files (idx + 1) ⟨stats', total', progress'⟩ rest

/-- The whole aggregation of a delivered record stream, started from the
empty statistics and index 1. -/
def aggregate (verbose : Bool) (total_files : Nat)
    (records : List (Option String × Nat)) : AggState :=
  aggLoop verbose total_files 1 ⟨fun _ => (0, 0), 0, []⟩ records

/-- The observable outcome of one run of `main`: the process exit code, the
SUM row of the report (`(total_files, total_tokens)` of main.py line 144, or
`none` when no report is printed), and the progress lines. -/
structure RunResult where
  exitCode : Nat
  summary : Option (Nat × Nat)
  progress : List (Nat × Nat × Nat)
  deriving DecidableEq

/-- `main` (main.py lines 84-145) from the traversal on.  `rootTree = none`
models a `directory` argument that does not exist or is not a directory:
`os.walk` (with its default `onerror=None`) swallows the `scandir` error and
yields nothing, so `get_all_text_files` returns `[]`.  When no text files are
found `main` prints a notice and returns, and the process exits 0.  Otherwise
the delivered record `stream` (a completion-order permutation of the mapped
worker results, constrained by hypotheses in the theorems below) is
aggregated and the SUM row reports `total_files` and `total_tokens`.  The
interrupt and pool-failure paths (`sys.exit(1)`) are outside every claim's
run and are not modelled. -/
def mainRun (readBytes : String → Option (List Nat))
    (exclude_dirs include_exts exclude_exts : Option (List String))
    (rootPath : String) (rootTree : Option FSTree) (verbose : Bool)
    (stream : List (Option String × Nat)) : RunResult :=
  let text_files :=
    match rootTree with
    | none => []
    | some t => get_all_text_files readBytes exclude_dirs include_exts exclude_exts rootPath t
  let total_files := text_files.length
  if total_files = 0 then ⟨0, none, []⟩
  else
    let st := aggregate verbose total_files stream
    ⟨0, some (total_files, st.total_tokens), st.progress⟩

/-! ### Spec-side helper definitions (used to state characterizations) -/

/-- The token counts of the non-sentinel records of a stream. -/
def succCounts (recs : List (Option String × Nat)) : List Nat :=
  recs.filterMap fun r => match r.1 with | some _ => some r.2 | none => none

/-- The records of a stream labelled with extension `e`. -/
def recsWithExt (e : String) (recs : List (Option String × Nat)) :
    List (Option String × Nat) :=
  recs.filter fun r => r.1 = some e

mutual
/-- Modelled from the spec: removing from a tree, at every depth, each
subdirectory whose name is in the exclusion set, together with everything
beneath it ("pruning is by name only, not path; a name match at any depth is
excluded"). -/
def pruneTree (ex : List String) : FSTree → FSTree
  | .mk n files subdirs => .mk n files (pruneList ex subdirs)

/-- Modelled from the spec: prune a list of subdirectories. -/
def pruneList (ex : List String) : List FSTree → List FSTree
  | [] => []
  | d :: ds =>
    (if d.name ∈ ex then [] else [pruneTree ex d]) ++ pruneList ex ds
end

/-- Modelled from the spec: the progress lines §4.5 would have the aggregator
emit, as the code actually emits them — one line per non-sentinel record
whose 1-based stream index is a multiple of 1000 (when verbose), carrying the
index, the expected total and the running token total including the current
record.  Sentinel records advance the index and emit nothing. -/
def progressSpec (verbose : Bool) (total_files : Nat) :
    Nat → Nat → List (Option String × Nat) → List (Nat × Nat × Nat)
  | _, _, [] => []
  | idx, run, (ext?, count) :: rest =>
    match ext? with
    | none => progressSpec verbose total_files (idx + 1) run rest
    | some _ =>
      (if verbose && (idx % 1000 == 0) then [(idx, total_files, run + count)] else [])
      ++ progressSpec verbose total_files (idx + 1) (run + count) rest

/-! ### Theorems -/

/-- Membership in the allowed byte set, spelled out. -/
theorem mem_text_chars (c : Nat) :
    c ∈ text_chars ↔
      c = 7 ∨ c = 8 ∨ c = 9 ∨ c = 10 ∨ c = 12 ∨ c = 13 ∨ c = 27 ∨
        (0x20 ≤ c ∧ c ≤ 0xFF) := by
  constructor
  · intro h
    rcases List.mem_append.1 h with h | h
    · simp only [List.mem_cons, List.not_mem_nil, or_false] at h
      tauto
    · rcases List.mem_range'.1 h with ⟨i, hi, rfl⟩
      right; right; right; right; right; right; right
      omega
  · intro h
    rcases h with h | h | h | h | h | h | h | h
    all_goals first
      | (subst h; decide)
      | exact List.mem_append.2 (Or.inr (List.mem_range'.2 ⟨c - 0x20, by omega, by omega⟩))

/-- Helper for C2: the classification of a readable file, over `text_chars`. -/
theorem is_text_file_false_iff (readBytes : String → Option (List Nat)) (p : String) :
    is_text_file readBytes p 512 = false ↔
      readBytes p = none ∨
      ∃ content, readBytes p = some content ∧
        ((0 : Nat) ∈ content.take 512 ∨ ∃ c ∈ content.take 512, c ∉ text_chars) := by
  cases h : readBytes p with
  | none => simp [is_text_file, h]
  | some content =>
    have hiff : (¬ ((content.take 512).all fun c => decide (c ∈ text_chars)) = true) ↔
        ∃ c ∈ content.take 512, c ∉ text_chars := by
      simp [List.all_eq_true]
    simp only [is_text_file, h, Option.some.injEq, reduceCtorEq, false_or]
    constructor
    · intro hf
      refine ⟨content, rfl, ?_⟩
      by_cases h0 : (0 : Nat) ∈ content.take 512
      · exact Or.inl h0
      · rw [if_neg (by simpa using h0)] at hf
        by_cases hall : ((content.take 512).all fun c => decide (c ∈ text_chars)) = true
        · rw [if_neg (by simp [hall])] at hf
          cases hf
        · exact Or.inr (hiff.1 hall)
    · rintro ⟨c₁, rfl, hbad | hbad⟩
      · rw [if_pos (by simpa using hbad)]
      · by_cases h0 : (0 : Nat) ∈ content.take 512
        · rw [if_pos (by simpa using h0)]
        · rw [if_neg (by simpa using h0), if_pos (by simpa using hiff.2 hbad)]

/-- C2: `is_text_file` returns `false` exactly when the read of the first
at-most-512 bytes fails, or the sample contains a null byte, or some sample
byte lies outside `{0x07, 0x08, 0x09, 0x0A, 0x0C, 0x0D, 0x1B} ∪ [0x20, 0xFF]`;
otherwise it returns `true`, in particular on an empty file.  The operation is
a total `Bool`-valued function: the source's blanket `except` clause means no
exception escapes, which the `Option`-valued read model absorbs. -/
theorem is_text_file_classification :
    (∀ (readBytes : String → Option (List Nat)) (p : String),
      is_text_file readBytes p 512 = false ↔
        readBytes p = none ∨
        ∃ content, readBytes p = some content ∧
          ((0 : Nat) ∈ content.take 512 ∨
           ∃ c ∈ content.take 512,
             ¬(c = 7 ∨ c = 8 ∨ c = 9 ∨ c = 10 ∨ c = 12 ∨ c = 13 ∨ c = 27 ∨
               (0x20 ≤ c ∧ c ≤ 0xFF))))
    ∧ (∀ (readBytes : String → Option (List Nat)) (p : String),
        readBytes p = some [] → is_text_file readBytes p 512 = true) := by
  constructor
  · intro readBytes p
    rw [is_text_file_false_iff readBytes p]
    refine or_congr_right (exists_congr fun content => and_congr_right fun _ => ?_)
    refine or_congr_right (exists_congr fun c => and_congr_right fun _ => ?_)
    rw [mem_text_chars]
  · intro readBytes p h
    simp [is_text_file, h]

/-- Witness for C2 at a concrete input: an empty file classifies as text. -/
theorem is_text_file_classification_witness :
    is_text_file (fun _ => some ([] : List Nat)) "empty" 512 = true :=
  is_text_file_classification.2 (fun _ => some []) "empty" rfl

/-- A `takeWhile` whose predicate holds throughout keeps the whole list. -/
theorem takeWhile_eq_self_of_all {α} (p : α → Bool) :
    ∀ l : List α, (∀ a ∈ l, p a = true) → l.takeWhile p = l
  | [], _ => rfl
  | a :: l, h => by
    rw [List.takeWhile_cons_of_pos (h a (by simp)),
      takeWhile_eq_self_of_all p l fun b hb => h b (by simp [hb])]

/-- A `dropWhile` whose predicate holds throughout drops the whole list. -/
theorem dropWhile_eq_nil_of_all {α} (p : α → Bool) :
    ∀ l : List α, (∀ a ∈ l, p a = true) → l.dropWhile p = []
  | [], _ => rfl
  | a :: l, h => by
    rw [List.dropWhile_cons_of_pos (h a (by simp))]
    exact dropWhile_eq_nil_of_all p l fun b hb => h b (by simp [hb])

/-- On a path without separators the last component is the whole path. -/
theorem lastComponent_of_no_slash (l : List Char) (h : '/' ∉ l) :
    lastComponent l = l := by
  unfold lastComponent
  rw [takeWhile_eq_self_of_all _ _ fun a ha => by
      simp only [bne_iff_ne, ne_eq]
      exact fun hq => h (hq ▸ List.mem_reverse.1 ha),
    List.reverse_reverse]

/-- `splitext` yields no extension on a dot-free component. -/
theorem extAfterLastDot_of_no_dot (base : List Char) (h : '.' ∉ base) :
    extAfterLastDot base = [] := by
  unfold extAfterLastDot
  rw [dropWhile_eq_nil_of_all _ _ fun a ha => by
    simp only [bne_iff_ne, ne_eq]
    exact fun hq => h (hq ▸ List.mem_reverse.1 ha)]

/-- `splitext` yields no extension on a pure dotfile (single leading dot). -/
theorem extAfterLastDot_dotfile (rest : List Char) (h : '.' ∉ rest) :
    extAfterLastDot ('.' :: rest) = [] := by
  unfold extAfterLastDot
  have hrev : ('.' :: rest).reverse = rest.reverse ++ ['.'] := by
    simp
  rw [hrev, List.dropWhile_append_of_pos fun a ha => by
      simp only [bne_iff_ne, ne_eq]
      exact fun hq => h (hq ▸ List.mem_reverse.1 ha),
    List.dropWhile_cons_of_neg (by simp)]
  simp

/-- `splitext` on `pre ++ '.' :: suf` with a dot-free `suf` and a non-dot
character somewhere in `pre` yields exactly `'.' :: suf`. -/
theorem extAfterLastDot_split (pre suf : List Char) (hsuf : '.' ∉ suf)
    (hpre : ∃ c ∈ pre, c ≠ '.') :
    extAfterLastDot (pre ++ '.' :: suf) = '.' :: suf := by
  unfold extAfterLastDot
  have hrev : (pre ++ '.' :: suf).reverse = suf.reverse ++ '.' :: pre.reverse := by
    simp
  have hsufrev : ∀ a ∈ suf.reverse, (a != '.') = true := fun a ha => by
    simp only [bne_iff_ne, ne_eq]
    exact fun hq => hsuf (hq ▸ List.mem_reverse.1 ha)
  have hany : (pre.reverse.any fun c => c != '.') = true := by
    obtain ⟨c, hc, hne⟩ := hpre
    exact List.any_eq_true.2 ⟨c, List.mem_reverse.2 hc, by simpa [bne_iff_ne]⟩
  rw [hrev, List.dropWhile_append_of_pos hsufrev,
    List.dropWhile_cons_of_neg (by simp),
    List.takeWhile_append_of_pos hsufrev, List.takeWhile_cons_of_neg (by simp)]
  simp [hany]

/-- C5 counterexample input: a one-token encoder and an always-readable file. -/
def encodeStub : String → List Nat := fun s => s.data.map Char.toNat

/-- C5 counterexample input: every path reads as the text `"x"`. -/
def readFileStub : String → Option String := fun _ => some "x"

/-- C5 counterexample: the dotfile `.bashrc` is successfully tokenized, the
filename does contain a `'.'`, and the substring from its last `'.'` onward is
`".bashrc"` — yet the produced extension label is `"No Extension"`, not
`".bashrc"`, refuting the claim as stated. -/
theorem extension_label_counterexample :
    (count_tokens_in_file encodeStub readFileStub ".bashrc").1 = some "No Extension"
    ∧ ("No Extension" : String) ≠ ".bashrc" := by
  constructor
  · decide
  · decide

/-- C5 amended: the extension label of a successfully tokenized file follows
`os.path.splitext`: on a separator-free filename, (a) a dot-free name gets the
label `"No Extension"`; (b) a dotfile `'.' :: rest` with no further dot also
gets `"No Extension"` (its single leading dot is not an extension separator);
(c) a name `pre ++ '.' :: suf` whose final dot is preceded by some non-dot
character gets the lower-cased substring from that last `'.'` onward. -/
theorem extension_label_amended (encode : String → List Nat)
    (readFile : String → Option String) :
    (∀ name : List Char, '/' ∉ name → '.' ∉ name →
      ∀ content, readFile (String.mk name) = some content →
        (count_tokens_in_file encode readFile (String.mk name)).1
          = some "No Extension")
    ∧ (∀ rest : List Char, '/' ∉ rest → '.' ∉ rest →
      ∀ content, readFile (String.mk ('.' :: rest)) = some content →
        (count_tokens_in_file encode readFile (String.mk ('.' :: rest))).1
          = some "No Extension")
    ∧ (∀ pre suf : List Char, '/' ∉ pre → '/' ∉ suf → '.' ∉ suf →
        (∃ c ∈ pre, c ≠ '.') →
      ∀ content, readFile (String.mk (pre ++ '.' :: suf)) = some content →
        (count_tokens_in_file encode readFile (String.mk (pre ++ '.' :: suf))).1
          = some (pyLower (String.mk ('.' :: suf)))) := by
  refine ⟨?_, ?_, ?_⟩
  · intro name hslash hdot content hread
    simp only [count_tokens_in_file, hread, extLabel, splitextExt,
      lastComponent_of_no_slash _ hslash, extAfterLastDot_of_no_dot _ hdot]
    rfl
  · intro rest hslash hdot content hread
    have hslash' : '/' ∉ ('.' :: rest) := by
      intro hmem
      rcases List.mem_cons.1 hmem with h | h
      · cases h
      · exact hslash h
    simp only [count_tokens_in_file, hread, extLabel, splitextExt,
      lastComponent_of_no_slash _ hslash', extAfterLastDot_dotfile _ hdot]
    rfl
  · intro pre suf hpre hsufs hsuf hex content hread
    have hslash' : '/' ∉ (pre ++ '.' :: suf) := by
      intro hmem
      rcases List.mem_append.1 hmem with h | h
      · exact hpre h
      · rcases List.mem_cons.1 h with h | h
        · cases h
        · exact hsufs h
    simp only [count_tokens_in_file, hread, extLabel, splitextExt,
      lastComponent_of_no_slash _ hslash', extAfterLastDot_split pre suf hsuf hex]
    rw [if_neg (by simp [String.ext_iff])]

/-- Witness for C5 amended, at concrete filenames of each shape. -/
theorem extension_label_amended_witness :
    (count_tokens_in_file encodeStub readFileStub "noext").1 = some "No Extension"
    ∧ (count_tokens_in_file encodeStub readFileStub ".gitignore").1 = some "No Extension"
    ∧ (count_tokens_in_file encodeStub readFileStub "foo.PY").1 = some ".py" := by
  refine ⟨?_, ?_, ?_⟩
  · exact (extension_label_amended encodeStub readFileStub).1
      "noext".data (by decide) (by decide) "x" rfl
  · exact (extension_label_amended encodeStub readFileStub).2.1
      "gitignore".data (by decide) (by decide) "x" rfl
  · exact ((extension_label_amended encodeStub readFileStub).2.2
      "foo".data "PY".data (by decide) (by decide) (by decide)
      ⟨'f', by decide, by decide⟩ "x" rfl).trans (by decide)

/-- C7: extension-filter matching is a case-insensitive suffix match of the
configured literal extension string (with its leading dot) against the
filename: the boolean test is exactly "lower-cased extension is a suffix of
the lower-cased name"; `.PY` matches `foo.py`; the multi-dot entry `.tar.gz`
matches `foo.tar.gz` by suffix even though the parsed last-dot extension of
that name is `".gz"`, not `".tar.gz"`. -/
theorem extension_matching_suffix :
    (∀ name ext : String,
      extMatch name ext = true ↔ (pyLower ext).data <:+ (pyLower name).data)
    ∧ extMatch "foo.py" ".PY" = true
    ∧ extMatch "foo.tar.gz" ".tar.gz" = true
    ∧ extLabel "foo.tar.gz" = ".gz" := by
  refine ⟨fun name ext => ?_, by decide, by decide, by decide⟩
  simp [extMatch]

/-- Helper for C6: with the same non-empty list as inclusion and exclusion
set, no filename survives the two extension filters. -/
theorem keepFile_same_exts (readBytes : String → Option (List Nat))
    (exts : List String) (hne : exts ≠ []) (root name : String) :
    keepFile readBytes (some exts) (some exts) root name = false := by
  have hemp : exts.isEmpty = false := by
    cases exts with
    | nil => exact absurd rfl hne
    | cons a l => rfl
  by_cases hm : (exts.any fun ext => extMatch name ext) = true
  · simp [keepFile, pyTruthy, hemp, hm]
  · simp [keepFile, pyTruthy, hemp, hm]

mutual
/-- Helper for C6 over the tree walk. -/
theorem walkTree_same_exts (readBytes : String → Option (List Nat))
    (ed : Option (List String)) (exts : List String) (hne : exts ≠ []) :
    ∀ (root : String) (t : FSTree),
      walkTree readBytes ed (some exts) (some exts) root t = []
  | root, .mk _ files subdirs => by
    simp only [walkTree]
    rw [walkSubdirs_same_exts readBytes ed exts hne root subdirs, List.append_nil]
    rw [List.filterMap_eq_nil_iff]
    intro name _
    rw [keepFile_same_exts readBytes exts hne root name]
    rfl

/-- Helper for C6 over subdirectory lists. -/
theorem walkSubdirs_same_exts (readBytes : String → Option (List Nat))
    (ed : Option (List String)) (exts : List String) (hne : exts ≠ []) :
    ∀ (root : String) (ds : List FSTree),
      walkSubdirs readBytes ed (some exts) (some exts) root ds = []
  | _, [] => by simp [walkSubdirs]
  | root, d :: ds => by
    simp only [walkSubdirs]
    rw [walkSubdirs_same_exts readBytes ed exts hne root ds, List.append_nil]
    by_cases hk : keepDir ed d.name = true
    · rw [if_pos hk, walkTree_same_exts readBytes ed exts hne _ d]
    · rw [if_neg hk]
end

/-- C6: exclusion is evaluated after inclusion passes — a kept file must
match the (non-empty) inclusion set and must not match the (non-empty)
exclusion set — and configuring the same set, e.g. `{.py}`, as both inclusion
and exclusion leaves zero surviving files on every tree. -/
theorem include_exclude_composition :
    (∀ (readBytes : String → Option (List Nat)) (inc exc : List String)
        (root name : String),
      keepFile readBytes (some inc) (some exc) root name = true →
        (inc ≠ [] → (inc.any fun ext => extMatch name ext) = true)
        ∧ (exc ≠ [] → (exc.any fun ext => extMatch name ext) = false))
    ∧ (∀ (readBytes : String → Option (List Nat)) (ed : Option (List String))
        (exts : List String), exts ≠ [] →
        ∀ (root : String) (t : FSTree),
          get_all_text_files readBytes ed (some exts) (some exts) root t = []) := by
  constructor
  · intro rb inc exc root name h
    constructor
    · intro hinc
      have hemp : inc.isEmpty = false := by
        cases inc with
        | nil => exact absurd rfl hinc
        | cons a l => rfl
      by_cases hm : (inc.any fun ext => extMatch name ext) = true
      · exact hm
      · exfalso
        simp [keepFile, pyTruthy, hemp, hm] at h
    · intro hexc
      have hemp : exc.isEmpty = false := by
        cases exc with
        | nil => exact absurd rfl hexc
        | cons a l => rfl
      by_cases hm : (exc.any fun ext => extMatch name ext) = true
      · exfalso
        simp [keepFile, pyTruthy, hemp, hm] at h
      · simpa using hm
  · intro rb ed exts hne root t
    exact walkTree_same_exts rb ed exts hne root t

/-- Witness for C6 at concrete inputs: `a.py` kept under inclusion `{.py}` /
exclusion `{.md}` matches the former and not the latter, and the walk of a
one-file tree under inclusion `{.py}` = exclusion `{.py}` yields no files. -/
theorem include_exclude_composition_witness :
    ((([".py"] : List String).any fun ext => extMatch "a.py" ext) = true
      ∧ (([".md"] : List String).any fun ext => extMatch "a.py" ext) = false)
    ∧ get_all_text_files (fun _ => some [104]) (some [".git"])
        (some [".py"]) (some [".py"]) "r" (.mk "r" ["a.py"] []) = [] := by
  constructor
  · have h := include_exclude_composition.1 (fun _ => some [104])
      [".py"] [".md"] "r" "a.py" (by decide)
    exact ⟨h.1 (by decide), h.2 (by decide)⟩
  · exact include_exclude_composition.2 (fun _ => some [104]) (some [".git"])
      [".py"] (by decide) "r" (.mk "r" ["a.py"] [])

/-- The name of a pruned tree is unchanged. -/
theorem pruneTree_name (ex : List String) (t : FSTree) :
    (pruneTree ex t).name = t.name := by
  cases t with
  | mk n files subdirs => simp [pruneTree, FSTree.name]

mutual
/-- Helper for C8: the walk with a directory-exclusion set equals the walk,
with no exclusion, of the tree from which every subdirectory with an excluded
name (at any depth) has been removed together with its whole subtree. -/
theorem walkTree_prune (readBytes : String → Option (List Nat))
    (ie ee : Option (List String)) (ex : List String) :
    ∀ (root : String) (t : FSTree),
      walkTree readBytes (some ex) ie ee root t =
        walkTree readBytes none ie ee root (pruneTree ex t)
  | root, .mk _ files subdirs => by
    simp only [walkTree, pruneTree]
    rw [walkSubdirs_prune readBytes ie ee ex root subdirs]

/-- Helper for C8 over subdirectory lists. -/
theorem walkSubdirs_prune (readBytes : String → Option (List Nat))
    (ie ee : Option (List String)) (ex : List String) :
    ∀ (root : String) (ds : List FSTree),
      walkSubdirs readBytes (some ex) ie ee root ds =
        walkSubdirs readBytes none ie ee root (pruneList ex ds)
  | _, [] => by simp [walkSubdirs, pruneList]
  | root, d :: ds => by
    by_cases hx : d.name ∈ ex
    · simp only [walkSubdirs, pruneList, if_pos hx, keepDir]
      rw [walkSubdirs_prune readBytes ie ee ex root ds]
      simp [hx]
    · simp only [walkSubdirs, pruneList, if_neg hx, keepDir, List.cons_append,
        List.nil_append]
      rw [walkSubdirs_prune readBytes ie ee ex root ds, pruneTree_name,
        ← walkTree_prune readBytes ie ee ex (pathJoin root d.name) d]
      simp [hx]
end

/-- C8: directory exclusion during traversal is by exact name only and
depth-independent — enumerating with exclusion set `ex` is the same as
enumerating, with no exclusion at all, the tree in which every subdirectory
whose name is in `ex` has been removed before descent at every depth, so no
file beneath such a directory is ever enumerated. -/
theorem directory_exclusion_prunes (readBytes : String → Option (List Nat))
    (ie ee : Option (List String)) (ex : List String) (root : String)
    (t : FSTree) :
    get_all_text_files readBytes (some ex) ie ee root t =
      get_all_text_files readBytes none ie ee root (pruneTree ex t) :=
  walkTree_prune readBytes ie ee ex root t

/-- The running total after the loop: the initial total plus the counts of
the non-sentinel records (sentinels are skipped by the `continue`). -/
theorem aggLoop_total (verbose : Bool) (T : Nat) :
    ∀ (recs : List (Option String × Nat)) (idx : Nat) (s : AggState),
      (aggLoop verbose T idx s recs).total_tokens
        = s.total_tokens + (succCounts recs).sum
  | [], _, s => by simp [aggLoop, succCounts]
  | (ext?, count) :: rest, idx, s => by
    cases ext? with
    | none =>
      rw [show aggLoop verbose T idx s ((none, count) :: rest)
          = aggLoop verbose T (idx + 1) s rest from rfl]
      rw [aggLoop_total verbose T rest (idx + 1) s]
      simp [succCounts, List.filterMap_cons]
    | some ext =>
      simp only [aggLoop]
      rw [aggLoop_total verbose T rest (idx + 1) _]
      simp only [succCounts, List.filterMap_cons]
      simp [Nat.add_assoc]

/-- The per-extension statistics after the loop: the initial cell plus the
count and token-sum of the records labelled with that extension. -/
theorem aggLoop_stats (verbose : Bool) (T : Nat) :
    ∀ (recs : List (Option String × Nat)) (idx : Nat) (s : AggState) (e : String),
      (aggLoop verbose T idx s recs).stats e
        = ((s.stats e).1 + (recsWithExt e recs).length,
           (s.stats e).2 + ((recsWithExt e recs).map Prod.snd).sum)
  | [], _, s, e => by simp [aggLoop, recsWithExt]
  | (ext?, count) :: rest, idx, s, e => by
    cases ext? with
    | none =>
      rw [show aggLoop verbose T idx s ((none, count) :: rest)
          = aggLoop verbose T (idx + 1) s rest from rfl]
      rw [aggLoop_stats verbose T rest (idx + 1) s e]
      simp [recsWithExt, List.filter_cons]
    | some ext =>
      simp only [aggLoop]
      rw [aggLoop_stats verbose T rest (idx + 1) _ e]
      by_cases he : e = ext
      · subst he
        simp [recsWithExt, List.filter_cons, Prod.ext_iff]
        omega
      · simp [recsWithExt, List.filter_cons, he, Ne.symm he]

/-- The progress lines after the loop: the initial lines followed by the
lines `progressSpec` prescribes from the current index and running total. -/
theorem aggLoop_progress (verbose : Bool) (T : Nat) :
    ∀ (recs : List (Option String × Nat)) (idx : Nat) (s : AggState),
      (aggLoop verbose T idx s recs).progress
        = s.progress ++ progressSpec verbose T idx s.total_tokens recs
  | [], _, s => by simp [aggLoop, progressSpec]
  | (ext?, count) :: rest, idx, s => by
    cases ext? with
    | none =>
      rw [show aggLoop verbose T idx s ((none, count) :: rest)
          = aggLoop verbose T (idx + 1) s rest from rfl]
      rw [aggLoop_progress verbose T rest (idx + 1) s]
      rfl
    | some ext =>
      simp only [aggLoop]
      rw [aggLoop_progress verbose T rest (idx + 1) _]
      simp only [progressSpec]
      by_cases hc : (verbose && (idx % 1000 == 0)) = true
      · simp [hc, List.append_assoc]
      · simp [hc]

/-- C10: the final aggregation results are invariant under permutation of
the record stream — any two delivery orders of the same multiset of records
produce the same total token count and the same extension-to-(file count,
token sum) map, so the unordered completion-order stream cannot change the
reported statistics. -/
theorem aggregation_permutation_invariant (verbose : Bool) (T : Nat)
    (r₁ r₂ : List (Option String × Nat)) (h : r₁.Perm r₂) :
    (aggregate verbose T r₁).total_tokens = (aggregate verbose T r₂).total_tokens
    ∧ (aggregate verbose T r₁).stats = (aggregate verbose T r₂).stats := by
  constructor
  · rw [aggregate, aggregate, aggLoop_total, aggLoop_total]
    have hp : (succCounts r₁).Perm (succCounts r₂) := h.filterMap _
    rw [hp.sum_eq]
  · funext e
    rw [aggregate, aggregate, aggLoop_stats, aggLoop_stats]
    have hperm : (recsWithExt e r₁).Perm (recsWithExt e r₂) := h.filter _
    rw [hperm.length_eq, (hperm.map Prod.snd).sum_eq]

/-- Witness for C10 at two concrete orders of one record multiset. -/
theorem aggregation_permutation_invariant_witness :
    (aggregate false 3 [(some ".py", 3), (none, 0), (some ".md", 5)]).total_tokens
      = (aggregate false 3 [(some ".md", 5), (some ".py", 3), (none, 0)]).total_tokens
    ∧ (aggregate false 3 [(some ".py", 3), (none, 0), (some ".md", 5)]).stats
      = (aggregate false 3 [(some ".md", 5), (some ".py", 3), (none, 0)]).stats :=
  aggregation_permutation_invariant false 3
    [(some ".py", 3), (none, 0), (some ".md", 5)]
    [(some ".md", 5), (some ".py", 3), (none, 0)] (by decide)

/-- When every sentinel record carries count 0, summing the non-sentinel
counts is the same as summing all counts. -/
theorem succCounts_sum_of_none_zero :
    ∀ (recs : List (Option String × Nat)),
      (∀ r ∈ recs, r.1 = none → r.2 = 0) →
      (succCounts recs).sum = (recs.map Prod.snd).sum
  | [], _ => rfl
  | (ext?, count) :: rest, h => by
    have ih := succCounts_sum_of_none_zero rest fun r hr => h r (by simp [hr])
    cases ext? with
    | none =>
      have h0 : count = 0 := h (none, count) (by simp) rfl
      simp [succCounts, List.filterMap_cons, h0] at ih ⊢
      simpa [succCounts] using ih
    | some ext =>
      simp only [succCounts, List.filterMap_cons] at ih ⊢
      simp [ih]

/-- C1: every candidate file path handed to the distributor yields exactly
one TokenRecord (the delivered stream, a permutation of the per-path worker
results, has one record per input path), and the total token count in the
final SUM row equals the sum of the per-file token counts returned, the
sentinel failure records contributing 0. -/
theorem one_record_per_path_and_sum (readBytes : String → Option (List Nat))
    (ed ie ee : Option (List String)) (rootPath : String) (t : FSTree)
    (verbose : Bool) (encode : String → List Nat)
    (readFile : String → Option String)
    (stream : List (Option String × Nat))
    (hstream : stream.Perm
      ((get_all_text_files readBytes ed ie ee rootPath t).map
        (count_tokens_in_file encode readFile)))
    (hne : get_all_text_files readBytes ed ie ee rootPath t ≠ []) :
    stream.length = (get_all_text_files readBytes ed ie ee rootPath t).length
    ∧ (mainRun readBytes ed ie ee rootPath (some t) verbose stream).summary
        = some ((get_all_text_files readBytes ed ie ee rootPath t).length,
                (stream.map Prod.snd).sum) := by
  have hzero : ∀ r ∈ stream, r.1 = none → r.2 = 0 := by
    intro r hr h1
    have hmem : r ∈ (get_all_text_files readBytes ed ie ee rootPath t).map
        (count_tokens_in_file encode readFile) := hstream.mem_iff.1 hr
    obtain ⟨p, _, rfl⟩ := List.mem_map.1 hmem
    cases hread : readFile p with
    | none => simp [count_tokens_in_file, hread]
    | some content => simp [count_tokens_in_file, hread] at h1
  constructor
  · exact hstream.length_eq.trans (by simp)
  · have hlen : ¬((get_all_text_files readBytes ed ie ee rootPath t).length = 0) := by
      simpa [List.length_eq_zero] using hne
    simp only [mainRun]
    rw [if_neg hlen]
    simp only [Option.some.injEq, Prod.mk.injEq, true_and]
    rw [aggregate, aggLoop_total]
    rw [succCounts_sum_of_none_zero stream hzero]
    simp

/-- Witness for C1: a one-file tree whose file tokenizes to 2 tokens,
delivered as a one-record stream. -/
theorem one_record_per_path_and_sum_witness :
    ([((some ".py" : Option String), 2)]).length
      = (get_all_text_files (fun _ => some [104]) (some [".git"]) none none "r"
          (.mk "r" ["a.py"] [])).length
    ∧ (mainRun (fun _ => some [104]) (some [".git"]) none none "r"
        (some (.mk "r" ["a.py"] [])) false [(some ".py", 2)]).summary
      = some ((get_all_text_files (fun _ => some [104]) (some [".git"]) none none "r"
          (.mk "r" ["a.py"] [])).length,
          (([((some ".py" : Option String), 2)]).map Prod.snd).sum) :=
  one_record_per_path_and_sum (fun _ => some [104]) (some [".git"]) none none "r"
    (.mk "r" ["a.py"] []) false encodeStub (fun _ => some "hi")
    [(some ".py", 2)] (by decide) (by decide)

/-- Filtering out the sentinel records changes no per-extension cell. -/
theorem recsWithExt_filter_isSome (e : String)
    (recs : List (Option String × Nat)) :
    recsWithExt e (recs.filter fun r => r.1.isSome) = recsWithExt e recs := by
  rw [recsWithExt, recsWithExt, List.filter_filter]
  refine List.filter_congr fun r _ => ?_
  cases hr : r.1 with
  | none => simp [hr]
  | some x => simp [hr]

/-- Filtering out the sentinel records changes the non-sentinel counts not
at all. -/
theorem succCounts_filter_isSome (recs : List (Option String × Nat)) :
    succCounts (recs.filter fun r => r.1.isSome) = succCounts recs := by
  rw [succCounts, succCounts, List.filterMap_filter]
  congr 1
  funext r
  cases hr : r.1 with
  | none => simp [hr]
  | some x => simp [hr]

/-- C4 counterexample: a run over one unreadable candidate file.  The
delivered stream is exactly the worker results for the candidate list and
consists of the single failure record `(none, 0)`, which is a failure record
(no record of the stream has an extension label); yet the SUM row reports a
grand-total file count of 1, not 0 — failure records are **not** excluded
from the grand-total file count, refuting the claim as stated. -/
theorem failure_records_counterexample :
    [((none : Option String), 0)]
        = (get_all_text_files (fun _ => some [104]) (some [".git"]) none none "r"
            (.mk "r" ["bad"] [])).map
          (count_tokens_in_file encodeStub (fun _ => none))
    ∧ (mainRun (fun _ => some [104]) (some [".git"]) none none "r"
        (some (.mk "r" ["bad"] [])) false [(none, 0)]).summary = some (1, 0)
    ∧ (([((none : Option String), 0)]).filter fun r => r.1.isSome).length = 0 := by
  refine ⟨by decide, by decide, by decide⟩

/-- C4 amended: in breakdown mode a failure record (extension label `none`,
count 0) is excluded from the per-extension breakdown map and from the
accumulated token total (deleting the failure records changes neither), but
the grand-total file count of the SUM row is the number of candidate files,
which does include the files that produced failure records. -/
theorem failure_records_excluded_amended (verbose : Bool) (T : Nat)
    (recs : List (Option String × Nat)) :
    (aggregate verbose T recs).stats
        = (aggregate verbose T (recs.filter fun r => r.1.isSome)).stats
    ∧ (aggregate verbose T recs).total_tokens
        = (aggregate verbose T (recs.filter fun r => r.1.isSome)).total_tokens
    ∧ ∀ (readBytes : String → Option (List Nat))
        (ed ie ee : Option (List String)) (rootPath : String) (t : FSTree)
        (stream : List (Option String × Nat)),
        get_all_text_files readBytes ed ie ee rootPath t ≠ [] →
        (mainRun readBytes ed ie ee rootPath (some t) verbose stream).summary
          = some ((get_all_text_files readBytes ed ie ee rootPath t).length,
              (aggregate verbose
                (get_all_text_files readBytes ed ie ee rootPath t).length
                stream).total_tokens) := by
  refine ⟨?_, ?_, ?_⟩
  · funext e
    rw [aggregate, aggregate, aggLoop_stats, aggLoop_stats,
      recsWithExt_filter_isSome]
  · rw [aggregate, aggregate, aggLoop_total, aggLoop_total,
      succCounts_filter_isSome]
  · intro readBytes ed ie ee rootPath t stream hne
    have hlen : ¬((get_all_text_files readBytes ed ie ee rootPath t).length = 0) := by
      simpa [List.length_eq_zero] using hne
    simp only [mainRun]
    rw [if_neg hlen]

/-- Witness for C4 amended: one failing candidate, stream with the sentinel
only. -/
theorem failure_records_excluded_amended_witness :
    (mainRun (fun _ => some [104]) (some [".git"]) none none "r"
        (some (.mk "r" ["bad"] [])) false [(none, 0)]).summary
      = some ((get_all_text_files (fun _ => some [104]) (some [".git"]) none none "r"
            (.mk "r" ["bad"] [])).length,
          (aggregate false
            (get_all_text_files (fun _ => some [104]) (some [".git"]) none none "r"
              (.mk "r" ["bad"] [])).length
            [(none, 0)]).total_tokens) :=
  (failure_records_excluded_amended false 0 []).2.2 (fun _ => some [104])
    (some [".git"]) none none "r" (.mk "r" ["bad"] []) [(none, 0)] (by decide)

/-- C9 counterexample input: 999 successful one-token records followed by
one failure record, so the 1000th processed record is a sentinel. -/
def recsC9 : List (Option String × Nat) :=
  List.replicate 999 ((some ".py" : Option String), 1) ++ [(none, 0)]

set_option maxRecDepth 100000 in
/-- C9 counterexample: with verbose enabled, after processing the 1000th
record of a 1000-record stream the aggregator emits **no** progress
observation, because the 1000th record is a failure record and the
`continue` skips the cadence check — refuting "a progress observation after
every 1000 processed records" as stated. -/
theorem progress_cadence_counterexample :
    recsC9.length = 1000 ∧ (aggregate true 1000 recsC9).progress = [] := by
  constructor
  · decide
  · decide

/-- C9 amended: with verbose enabled the aggregator emits a progress
observation (records processed so far, total expected, running token total
including the current record) at each record whose 1-based stream index is a
multiple of 1000 **and which is not a failure record**; a failure record
falling on such an index advances the count but emits nothing.  This is the
emission rule captured by `progressSpec`. -/
theorem progress_cadence_amended (verbose : Bool) (T : Nat)
    (recs : List (Option String × Nat)) :
    (aggregate verbose T recs).progress = progressSpec verbose T 1 0 recs := by
  rw [aggregate, aggLoop_progress]
  simp

/-- C3 counterexample: with a `directory` argument that does not exist (or
is not a directory), the run performs no validation — the walk enumerates
nothing, no report is printed, and the process exits with status 0, not a
non-zero usage failure, refuting the claim as stated. -/
theorem invalid_directory_counterexample :
    (mainRun (fun _ => some [104]) (some [".git"]) none none "/nonexistent"
        none false []).exitCode = 0
    ∧ (mainRun (fun _ => some [104]) (some [".git"]) none none "/nonexistent"
        none false []).summary = none := by
  constructor
  · decide
  · decide

/-- C3 amended: when the positional directory does not exist or is not a
directory, no usage error is raised and nothing fails: `os.walk` swallows
the error and yields nothing, `main` reports that no text files were found
and returns, and the process exits with status 0 and prints no summary. -/
theorem invalid_directory_amended (readBytes : String → Option (List Nat))
    (ed ie ee : Option (List String)) (rootPath : String) (verbose : Bool)
    (stream : List (Option String × Nat)) :
    mainRun readBytes ed ie ee rootPath none verbose stream
      = ⟨0, none, []⟩ := by
  simp [mainRun]
